import Mathlib

/-!
A shallow embedding of the command-routing core of the ALFRED assistant
(`src/core/brain.py`, `src/memory/memory_manager.py`,
`src/service_commands/memory_commands.py`, `src/service_commands/weather_commands.py`,
`src/services/weather_service.py`, `src/services/automation.py`).

Python dictionaries are modelled as association lists preserving insertion
order; the non-reentrant `threading.Lock` used by the memory manager is
modelled by making each lock-acquiring operation return `Option`: `none`
means the call never returns because it tries to re-acquire a lock the same
thread already holds (a self-deadlock).  External collaborators (HTTP, LLM
providers, OS actions) are oracle parameters.
-/

/-! ## Python dict as an insertion-ordered association list -/

/-- `m.get(k)` on a Python dict. -/
def dictGet {α : Type} (k : String) : List (String × α) → Option α
  | [] => none
  | (k2, v) :: rest => if k2 = k then some v else dictGet k rest

/-- `m[k] = v` on a Python dict: overwrite in place, else append. -/
def dictInsert {α : Type} (k : String) (v : α) : List (String × α) → List (String × α)
  | [] => [(k, v)]
  | (k2, v2) :: rest =>
      if k2 = k then (k, v) :: rest else (k2, v2) :: dictInsert k v rest

/-- `k in m` on a Python dict. -/
def dictHas {α : Type} (k : String) : List (String × α) → Bool
  | [] => false
  | (k2, _) :: rest => k2 = k || dictHas k rest

/-- `del m[k]` on a Python dict. -/
def dictErase {α : Type} (k : String) : List (String × α) → List (String × α)
  | [] => []
  | (k2, v2) :: rest =>
      if k2 = k then rest else (k2, v2) :: dictErase k rest

/-! ## Python string primitives

The Python `str` methods used by the routed handlers (`lower`, `strip`,
`split`, `replace`, `startswith`, substring containment, `capitalize`),
modelled over the character list of a Lean `String` so that concrete
inputs evaluate inside the kernel.  ASCII case mapping and whitespace
suffice for every string the program manipulates. -/

/-- ASCII case folding of Python `str.lower`. -/
def lowerChar (c : Char) : Char :=
  if 65 ≤ c.toNat && c.toNat ≤ 90 then Char.ofNat (c.toNat + 32) else c

/-- ASCII case mapping of Python `str.upper` on one character. -/
def upperChar (c : Char) : Char :=
  if 97 ≤ c.toNat && c.toNat ≤ 122 then Char.ofNat (c.toNat - 32) else c

/-- Python `str.lower()`. -/
def pyLower (s : String) : String :=
  ⟨s.data.map lowerChar⟩

/-- The whitespace stripped by Python `str.strip()` (ASCII subset). -/
def isSpaceChar (c : Char) : Bool :=
  c.toNat = 32 || c.toNat = 9 || c.toNat = 10 || c.toNat = 13 ||
    c.toNat = 11 || c.toNat = 12

/-- Python `str.strip()`. -/
def pyStrip (s : String) : String :=
  ⟨((s.data.dropWhile isSpaceChar).reverse.dropWhile isSpaceChar).reverse⟩

/-- Python `s.startswith(pre)`. -/
def pyStartsWith (s pre : String) : Bool :=
  pre.data.isPrefixOf s.data

/-- Python `sub in s` (substring containment). -/
def containsCL : List Char → List Char → Bool
  | s, sub =>
    if sub.isPrefixOf s then true
    else
      match s with
      | [] => false
      | _ :: rest => containsCL rest sub

/-- Python `sub in s` on `String`. -/
def pyContains (s sub : String) : Bool :=
  containsCL s.data sub.data

/-- Worker for Python `str.split(sep)` with non-empty `sep`: cut at each
leftmost non-overlapping occurrence.  `fuel` only forces termination; it is
always called with more fuel than characters. -/
def splitOnGo (sep : List Char) : Nat → List Char → List Char → List (List Char)
  | 0, s, acc => [acc.reverse ++ s]
  | fuel + 1, s, acc =>
    match s with
    | [] => [acc.reverse]
    | c :: rest =>
        if sep.isPrefixOf (c :: rest) then
          acc.reverse :: splitOnGo sep fuel ((c :: rest).drop sep.length) []
        else
          splitOnGo sep fuel rest (c :: acc)

/-- Python `s.split(sep)` for non-empty `sep`. -/
def pySplit (s sep : String) : List String :=
  (splitOnGo sep.data (s.data.length + 1) s.data []).map fun l => ⟨l⟩

/-- Python `s.replace(old, new)` for non-empty `old` (all non-overlapping
occurrences, left to right). -/
def replaceGo (old new : List Char) : Nat → List Char → List Char
  | 0, s => s
  | fuel + 1, s =>
    match s with
    | [] => []
    | c :: rest =>
        if old.isPrefixOf (c :: rest) then
          new ++ replaceGo old new fuel ((c :: rest).drop old.length)
        else
          c :: replaceGo old new fuel rest

/-- Python `s.replace(old, new)` on `String`. -/
def pyReplace (s old new : String) : String :=
  ⟨replaceGo old.data new.data (s.data.length + 1) s.data⟩

/-- Python `str.capitalize()`: first character upper-cased, the rest
lower-cased. -/
def pyCapitalize (s : String) : String :=
  match s.data with
  | [] => ""
  | c :: cs => ⟨upperChar c :: cs.map lowerChar⟩

/-- Python `s.split(sep, 1)` restricted to the case the code exercises:
the part before the first occurrence and the part after it, when `sep`
occurs in `s`. -/
def splitFirst (s sep : String) : Option (String × String) :=
  match pySplit s sep with
  | [] => none
  | [_] => none
  | a :: rest => some (a, String.intercalate sep rest)

/-- `text.lower().strip()` as performed by `get_response` and
`handle_memory_commands`. -/
def lowerStrip (text : String) : String :=
  pyStrip (pyLower text)

/-! ## Persistent fact store (`src/memory/memory_manager.py`)

State components: `_memory_cache` (`cache`, `none` = Python `None`), the
contents of `data/memory.json` (`disk`, `none` = unreadable/corrupt file),
whether disk writes currently succeed (`diskOk`), and `_cache_dirty`
(`dirty`).  All module functions acquire the single non-reentrant
`_memory_lock`; an operation that calls another lock-acquiring function
while already holding the lock deadlocks, which we model as `none`. -/

structure MemState where
  cache : Option (List (String × String))
  disk : Option (List (String × String))
  diskOk : Bool
  dirty : Bool
  deriving Repr, DecidableEq

/-- `load_memory()`: lines 39–58.  Called with the lock free; returns the
cached snapshot if present, otherwise reads the file (a read failure resets
the cache to the empty dict). -/
def load_memory (s : MemState) : List (String × String) × MemState :=
  match s.cache with
  | some m => (m, s)
  | none =>
      match s.disk with
      | some d => (d, { s with cache := some d })
      | none => ([], { s with cache := some [] })

/-- `save_memory(memory)`: lines 61–77.  Called with the lock free; updates
the cache and persists to disk, setting the dirty flag on an I/O failure. -/
def save_memory (m : List (String × String)) (s : MemState) : MemState :=
  if s.diskOk then
    { s with cache := some m, disk := some m, dirty := false }
  else
    { s with cache := some m, dirty := true }

/-- `remember(key, value)`: lines 80–101.  Inside `with _memory_lock:` the
code calls `load_memory()` when the cache is `None`; `load_memory` acquires
the same non-reentrant lock, so that path deadlocks (`none`).  With a warm
cache the key is stored, the lock is released, and `save_memory` runs
outside the lock; the best-effort vector-index write is wrapped in
`try/except` and cannot affect the result. -/
def remember (key value : String) (s : MemState) : Option (Bool × MemState) :=
  match s.cache with
  | none => none
  | some c =>
      let c2 := dictInsert key value c
      some (true, save_memory c2 { s with cache := some c2 })

/-- `recall(key)`: lines 104–107.  (The source name `recall` is a reserved
Mathlib command, hence the suffix.) -/
def recall_fact (key : String) (s : MemState) : Option String × MemState :=
  let (m, s2) := load_memory s
  (dictGet key m, s2)

/-- `forget(key)`: lines 110–121.  Both non-`False` paths run a
lock-acquiring function (`load_memory` or `save_memory`) while already
inside `with _memory_lock:`, so they deadlock (`none`); only the
key-absent path returns. -/
def forget (key : String) (s : MemState) : Option (Bool × MemState) :=
  match s.cache with
  | none => none
  | some c =>
      if dictHas key c then none
      else some (false, s)

/-- `list_memory()`: lines 124–126. -/
def list_memory (s : MemState) : List (String × String) × MemState :=
  load_memory s

/-- `clear_cache()`: lines 149–153. -/
def clear_cache (s : MemState) : MemState :=
  { s with cache := none }

/-! ## Conversation history (`src/core/brain.py`, lines 24–40) -/

/-- A conversation turn `{role, content}`. -/
abbrev Msg := String × String

def MAX_HISTORY : Nat := 10

/-- The trimming loop of `add_to_history`: `while len > MAX_HISTORY * 2: pop(0)`. -/
def trimHistory (h : List Msg) : List Msg :=
  if 2 * MAX_HISTORY < h.length then trimHistory h.tail else h
  termination_by h.length
  decreasing_by
    simp only [List.length_tail]
    omega

/-- `add_to_history(role, content)`: lines 34–40. -/
def add_to_history (h : List Msg) (role content : String) : List Msg :=
  trimHistory (h ++ [(role, content)])

/-- The history reached from the empty startup history by a sequence of
`add_to_history` calls. -/
def histAfter (msgs : List Msg) : List Msg :=
  msgs.foldl (fun h m => add_to_history h m.1 m.2) []

/-! ## Memory command handler (`src/service_commands/memory_commands.py`) -/

/-- `handle_memory_commands(text)`: lines 16–55.  Threads the fact-store
state; the outer `none` propagates a deadlock inside `remember`/`forget`.
The inner `Option String` is the handler reply (`none` = Python `None`,
not a memory command). -/
def handle_memory_commands (text : String) (s : MemState) :
    Option (Option String × MemState) :=
  let lower := lowerStrip text
  if pyStartsWith lower "remember that" then
    let fact := (splitFirst lower "remember that").elim "" Prod.snd
    match splitFirst fact " is " with
    | some (key, value) =>
        match remember (pyStrip key) (pyStrip value) s with
        | none => none
        | some (_, s2) =>
            let key_for_reply := pyReplace (pyStrip key) "my " "your "
            some (some ("I\x27ll remember that " ++ key_for_reply ++ " is " ++
              pyStrip value ++ "."), s2)
    | none =>
        some (some "Please phrase it like: \x27Remember that [key] is [value]\x27.", s)
  else if pyContains lower "what do you remember about" ||
      pyContains lower "what do you know about" then
    let key := pyStrip (pyReplace
      (pyReplace lower "what do you remember about" "") "what do you know about" "")
    let key_for_reply := pyReplace key "my " "your "
    match recall_fact key s with
    | (some v, s2) =>
        some (some (pyCapitalize key_for_reply ++ " is " ++ v ++ "."), s2)
    | (none, s2) =>
        some (some ("I don\x27t remember anything about " ++ key_for_reply ++ "."), s2)
  else if pyStartsWith lower "forget" then
    let key := pyStrip (pyReplace lower "forget" "")
    match forget key s with
    | none => none
    | some (success, s2) =>
        if success then
          some (some ("I\x27ve forgotten everything about " ++ key ++ "."), s2)
        else
          some (some ("I don\x27t remember anything about " ++ key ++ " to forget."), s2)
  else if pyContains lower "what do you remember" ||
      pyContains lower "list everything you remember" then
    match list_memory s with
    | (data, s2) =>
        if data.isEmpty then
          some (some "I don\x27t have anything stored yet.", s2)
        else
          some (some ("Here is what I remember:\n" ++
            String.intercalate "\n" (data.map fun kv => kv.1 ++ ": " ++ kv.2)), s2)
  else
    some (none, s)

/-! ## LLM fallback client and dispatch core (`src/core/brain.py`)

The two chat-completion providers are oracles of type
`List Msg → Except Unit String`; `.error` models the provider call raising.
`query_llm_with_context` additionally records every outbound provider call
with the exact message list sent, so that claims about call counts are
statable. -/

inductive LLMProvider
  | primary
  | secondary
  deriving Repr, DecidableEq

def SYSTEM_PROMPT : String :=
  "You are A.L.F.R.E.D, an All Knowing Logical Facilitator for Reasoned Execution of Duties.\nYou are a sophisticated AI assistant inspired by J.A.R.V.I.S. Be helpful, concise, and maintain a professional yet friendly demeanor.\nAddress the user respectfully and provide accurate, thoughtful responses."

/-- `build_messages()`: lines 96–101. -/
def build_messages (hist : List Msg) : List Msg :=
  ("system", SYSTEM_PROMPT) :: hist

def llmFailReply : String :=
  "Sorry, I couldn\x27t process your request with any available models."

/-- `query_llm_with_context(text)`: lines 104–132, instrumented with the
list of outbound provider calls (provider, message list sent). -/
def query_llm_with_context (primaryLLM secondaryLLM : List Msg → Except Unit String)
    (hist : List Msg) : String × List (LLMProvider × List Msg) :=
  let messages := build_messages hist
  match primaryLLM messages with
  | .ok content => (content, [(.primary, messages)])
  | .error _ =>
      match secondaryLLM messages with
      | .ok content => (content, [(.primary, messages), (.secondary, messages)])
      | .error _ => (llmFailReply, [(.primary, messages), (.secondary, messages)])

def errorReply : String :=
  "Sorry, I encountered an error while processing your request."

/-- Python truthiness of an `Optional[str]`: `None` and `""` are falsy. -/
def truthy : Option String → Option String
  | none => none
  | some r => if r = "" then none else some r

/-- Result of one `get_response` dispatch: the reply, the conversation
history afterwards, the fact-store state afterwards, and the outbound LLM
provider calls made (empty when the LLM fallback was never reached). -/
structure BrainOut where
  reply : String
  hist : List Msg
  mem : MemState
  llmCalls : List (LLMProvider × List Msg)
  deriving Repr, DecidableEq

/-- `get_response(text)`: lines 43–76.  `serviceH` and `runC` are the
step-2/step-3 collaborators (`handle_service_commands`, `run_command`);
`.error` models an exception raised inside them, which the single
top-level `except` converts to `errorReply`.  The outer `none` propagates
a deadlock inside the memory commands. -/
def get_response (serviceH runC : String → Except Unit (Option String))
    (primaryLLM secondaryLLM : List Msg → Except Unit String)
    (text : String) (hist : List Msg) (ms : MemState) : Option BrainOut :=
  let lower := lowerStrip text
  match handle_memory_commands lower ms with
  | none => none
  | some (r1, ms1) =>
    match truthy r1 with
    | some r => some ⟨r, hist, ms1, []⟩
    | none =>
      match serviceH lower with
      | .error _ => some ⟨errorReply, hist, ms1, []⟩
      | .ok r2 =>
        match truthy r2 with
        | some r => some ⟨r, hist, ms1, []⟩
        | none =>
          match runC lower with
          | .error _ => some ⟨errorReply, hist, ms1, []⟩
          | .ok r3 =>
            match truthy r3 with
            | some r => some ⟨r, hist, ms1, []⟩
            | none =>
              let h1 := add_to_history hist "user" text
              match query_llm_with_context primaryLLM secondaryLLM h1 with
              | (reply, calls) =>
                  let h2 := add_to_history h1 "assistant" reply
                  some ⟨reply, h2, ms1, calls⟩

/-! ## Weather service (`src/services/weather_service.py`)

Wall-clock instants (`time.time()`) are rationals.  The outbound HTTP
request is an oracle value: `reqError` models `requests.get` raising a
`RequestException`, `response status data` a reply with an HTTP status and
the JSON fields the code consumes.  The numeric JSON fields only flow into
string formatting, so they are carried as the strings they format to. -/

/-- The JSON fields of the weather API reply that the code reads. -/
structure WeatherData where
  description : String
  temp : String
  feels_like : String
  humidity : String
  deriving Repr, DecidableEq

/-- Outcome of `requests.get` for one outbound request. -/
inductive HttpResult
  | reqError
  | response (status : Nat) (data : WeatherData)
  deriving Repr, DecidableEq

/-- One entry of `_weather_cache`: `{"response": ..., "timestamp": ...}`. -/
structure CacheEntry where
  response : String
  timestamp : ℚ
  deriving Repr, DecidableEq

abbrev WeatherCache := List (String × CacheEntry)

def WEATHER_CACHE_TTL : ℚ := 180

/-- The `location` argument of `get_weather`: a string or a
`(city, country)` tuple. -/
inductive PyLocation
  | str (s : String)
  | tup (city country : String)
  deriving Repr, DecidableEq

/-- Lines 63–64: a tuple location is rendered as `f"{city}, {country}"`. -/
def locationString : PyLocation → String
  | .str s => s
  | .tup city country => city ++ ", " ++ country

/-- Lines 96–100: the success reply format. -/
def formatWeather (location : String) (d : WeatherData) : String :=
  "Weather in " ++ location ++ ": " ++ d.description ++
    ". Temperature: " ++ d.temp ++ "°C (feels like " ++ d.feels_like ++
    "°C). Humidity: " ++ d.humidity ++ "%."

/-- Result of one `get_weather` call: the reply, the weather cache
afterwards, and whether an outbound HTTP request was issued. -/
structure WeatherOut where
  reply : String
  cache : WeatherCache
  issuedRequest : Bool
  deriving Repr, DecidableEq

/-- `get_weather(location)`: lines 57–105. -/
def get_weather (http : HttpResult) (location0 : PyLocation) (now : ℚ)
    (cache : WeatherCache) : WeatherOut :=
  let location := locationString location0
  let cache_key := pyLower location
  let fetch : WeatherOut :=
    match http with
    | .reqError =>
        ⟨"Could not retrieve weather data for " ++ location ++ ".", cache, true⟩
    | .response status d =>
        if status ≠ 200 then
          ⟨"Could not retrieve weather data for " ++ location ++ ".", cache, true⟩
        else
          let result := formatWeather location d
          ⟨result, dictInsert cache_key ⟨result, now⟩ cache, true⟩
  match dictGet cache_key cache with
  | some cached =>
      if now - cached.timestamp < WEATHER_CACHE_TTL then
        ⟨cached.response, cache, false⟩
      else fetch
  | none => fetch

/-! ## Weather command handler (`src/service_commands/weather_commands.py`) -/

def weatherKeywords : List String :=
  ["weather", "how\x27s the weather", "what\x27s the weather", "current weather",
   "weather update", "weather report", "forecast", "temperature"]

/-- `handle_weather_command(user_input)`: lines 11–46.  `get_location` is
the `get_location_from_ip()` collaborator result (`none` = falsy), `getW`
the `get_weather` collaborator. -/
def handle_weather_command (get_location : Option (String × String))
    (getW : PyLocation → String) (user_input : String) : Option String :=
  let ui := pyLower user_input
  if weatherKeywords.any (fun k => pyContains ui k) then
    let parts := pySplit ui "in"
    if 1 < parts.length then
      some (getW (.str (pyStrip ((parts.get? 1).getD ""))))
    else
      match get_location with
      | some (city, country) => some (getW (.tup city country))
      | none => some "Could not determine your location. Please specify a city."
  else none

/-! ## OS automation matcher (`src/services/automation.py`)

`run_command` matches the utterance against the registry with
`difflib.get_close_matches(user_input, phrases, n=1, cutoff=0.5)`.  The
similarity ratio of `difflib.SequenceMatcher` (no junk heuristic: every
string here is far below the autojunk threshold) is embedded below:
`findBest` is `find_longest_match` (longest common contiguous block,
earliest in `a` then in `b` on ties), `matchTotal` the total size of the
recursive matching-block decomposition, and `pyRatio a b = 2*M/(|a|+|b|)`.
`get_close_matches` filters candidates `x` by
`SequenceMatcher(None, x, word).ratio() >= cutoff` (its two quick-ratio
pre-filters are upper bounds of `ratio` and only skip work) and takes the
largest by `(ratio, x)` tuple order. -/

/-- Scan one diagonal (an aligned pair of suffixes): the length and start
offset of the longest run of equal characters, the earliest such run on
ties (difflib records a new best only on a strict improvement).
Accumulators: position along the diagonal, current run length and start,
best run length and start. -/
def diagGo : List Char → List Char → Nat → Nat → Nat → Nat → Nat → Nat × Nat
  | x :: xs, y :: ys, pos, cur, curStart, bs, bp =>
      if x = y then
        let start := if cur = 0 then pos else curStart
        let cur2 := cur + 1
        if bs < cur2 then diagGo xs ys (pos + 1) cur2 start cur2 start
        else diagGo xs ys (pos + 1) cur2 start bs bp
      else diagGo xs ys (pos + 1) 0 0 bs bp
  | _, _, _, _, _, bs, bp => (bs, bp)

/-- Preference order of `find_longest_match` on blocks `(size, i, j)`:
larger size, ties towards smaller `i`, then smaller `j`.  Distinct
diagonals give distinct `(i, j)`, so this order is strict and the fold
order over diagonals does not matter. -/
def betterBlock (c1 c2 : Nat × Nat × Nat) : Nat × Nat × Nat :=
  if c1.1 < c2.1 ∨ (c1.1 = c2.1 ∧
      (c2.2.1 < c1.2.1 ∨ (c2.2.1 = c1.2.1 ∧ c2.2.2 < c1.2.2))) then c2
  else c1

/-- Best block over the diagonals starting at `(i, 0)`, `i` ascending. -/
def bestOverA (wb : List Char) : List Char → Nat → Nat × Nat × Nat
  | [], _ => (0, 0, 0)
  | x :: arest, i =>
      match diagGo (x :: arest) wb 0 0 0 0 0 with
      | (s, p) => betterBlock (bestOverA wb arest (i + 1)) (s, i + p, p)

/-- Best block over the diagonals starting at `(0, j)`, `j` ascending. -/
def bestOverB (wa : List Char) : List Char → Nat → Nat × Nat × Nat
  | [], _ => (0, 0, 0)
  | y :: brest, j =>
      match diagGo wa (y :: brest) 0 0 0 0 0 with
      | (s, p) => betterBlock (bestOverB wa brest (j + 1)) (s, p, j + p)

/-- `find_longest_match` on the windows `wa`/`wb` (no junk present):
the `(size, i, j)` maximal under `betterBlock`, i.e. the longest common
contiguous block, earliest in `a` then in `b` on ties, computed diagonal
by diagonal. -/
def findBestW (wa wb : List Char) : Nat × Nat × Nat :=
  betterBlock (bestOverA wb wa 0) (bestOverB wa wb.tail 1)

/-- Total size of all blocks of `get_matching_blocks`: recursively take
the longest match and recurse on the parts left of it and right of it.
`fuel` only forces termination and is always supplied larger than the
recursion depth. -/
def matchTotalW : Nat → List Char → List Char → Nat
  | 0, _, _ => 0
  | fuel + 1, wa, wb =>
      match findBestW wa wb with
      | (k, i, j) =>
          if k = 0 then 0
          else k + matchTotalW fuel (wa.take i) (wb.take j) +
            matchTotalW fuel (wa.drop (i + k)) (wb.drop (j + k))

/-- Total matching-block size of `SequenceMatcher(None, a, b)`. -/
def mtotal (a b : String) : ℕ :=
  matchTotalW (a.data.length + b.data.length + 1) a.data b.data

/-- `len(a) + len(b)`, the denominator weight of `ratio()`. -/
def tlen (a b : String) : ℕ :=
  a.data.length + b.data.length

/-- `SequenceMatcher(None, a, b).ratio()` as an exact rational
(`2*M/T`, and 1.0 when both strings are empty). -/
def pyRatio (a b : String) : ℚ :=
  if tlen a b = 0 then 1 else 2 * (mtotal a b : ℚ) / (tlen a b : ℚ)

/-- The ratio `get_close_matches` uses for a candidate `x` against `word`:
`SequenceMatcher` with `seq1 = x`, `seq2 = word`. -/
def ratioTo (word x : String) : ℚ :=
  pyRatio x word

/-- `ratio() >= 0.5` for candidate `x`, computed by cross multiplication
(`2*(2*M) >= T`), which is exact for these rationals. -/
def cutoffOK (word x : String) : Bool :=
  tlen x word ≤ 4 * mtotal x word

/-- `ratio of x < ratio of y` against `word`, by cross multiplication. -/
def ratioLtB (word x y : String) : Bool :=
  mtotal x word * tlen y word < mtotal y word * tlen x word

/-- `ratio of x = ratio of y` against `word`, by cross multiplication. -/
def ratioEqB (word x y : String) : Bool :=
  mtotal x word * tlen y word == mtotal y word * tlen x word

/-- Python string `<` (lexicographic by code point), the tie-break of the
`(ratio, x)` tuples inside `heapq.nlargest`. -/
def strLtB : List Char → List Char → Bool
  | [], [] => false
  | [], _ :: _ => true
  | _ :: _, [] => false
  | c :: cs, d :: ds =>
      if c < d then true else if d < c then false else strLtB cs ds

/-- One step of the selection `heapq.nlargest(1, ...)` performs over the
candidates that clear the cutoff: keep the candidate with the larger
`(ratio, x)` tuple. -/
def gcmStep (word : String) (acc : Option String) (x : String) : Option String :=
  if cutoffOK word x then
    match acc with
    | none => some x
    | some y =>
        if ratioLtB word y x || (ratioEqB word y x && strLtB y.data x.data) then
          some x
        else acc
  else acc

/-- `difflib.get_close_matches(word, poss, n=1, cutoff=0.5)`: the
candidate with ratio at least 1/2 maximizing the `(ratio, x)` tuple (its
two quick-ratio pre-filters are upper bounds of `ratio` and only skip
work). -/
def get_close_matches1 (word : String) (poss : List String) : Option String :=
  poss.foldl (gcmStep word) none

/-- The insertion-ordered keys of `command_map`: lines 54–60. -/
def commandPhrases : List String :=
  ["open browser", "open vs code", "tell time", "play music", "lock computer"]

/-- One record appended to `command_log.txt` by `log_command`. -/
structure LogEntry where
  input : String
  matched : Option String
  deriving Repr, DecidableEq

/-- `run_command(user_input)`: lines 65–84.  `act` maps a registry phrase
to the string its bound zero-argument action returns; the log file is
threaded as a list of records. -/
def run_command (act : String → String) (user_input : String)
    (log : List LogEntry) : Option String × List LogEntry :=
  let ui := pyLower user_input
  let log1 := log ++ [⟨ui, none⟩]
  match get_close_matches1 ui commandPhrases with
  | some command => (some (act command), log1 ++ [⟨ui, some command⟩])
  | none => (none, log1)

/-! ## Helper lemmas -/

theorem dictGet_insert {α : Type} (k : String) (v : α) (m : List (String × α)) :
    dictGet k (dictInsert k v m) = some v := by
  induction m with
  | nil => simp [dictInsert, dictGet]
  | cons hd tl ih =>
      obtain ⟨k2, v2⟩ := hd
      by_cases hk : k2 = k
      · simp [dictInsert, hk, dictGet]
      · simp [dictInsert, hk, dictGet, ih]

theorem trimHistory_eq_aux :
    ∀ (n : Nat) (h : List Msg), h.length ≤ n →
      trimHistory h = h.drop (h.length - 2 * MAX_HISTORY) := by
  intro n
  induction n with
  | zero =>
      intro h hle
      rw [trimHistory]
      have h0 : h.length = 0 := Nat.le_zero.mp hle
      simp [h0]
  | succ n ih =>
      intro h hle
      rw [trimHistory]
      split
      · next hlt =>
          rw [ih h.tail (by simp [List.length_tail]; omega)]
          cases h with
          | nil => simp [MAX_HISTORY] at hlt
          | cons a t =>
              simp only [List.length_cons, List.tail_cons]
              have he : t.length + 1 - 2 * MAX_HISTORY =
                  (t.length - 2 * MAX_HISTORY) + 1 := by
                simp only [List.length_cons, MAX_HISTORY] at hlt ⊢
                omega
              rw [he, List.drop_succ_cons]
      · next hge =>
          have h0 : h.length - 2 * MAX_HISTORY = 0 := by omega
          rw [h0, List.drop_zero]

theorem trimHistory_eq (h : List Msg) :
    trimHistory h = h.drop (h.length - 2 * MAX_HISTORY) :=
  trimHistory_eq_aux h.length h le_rfl

theorem histAfter_eq (msgs : List Msg) :
    histAfter msgs = msgs.drop (msgs.length - 2 * MAX_HISTORY) := by
  induction msgs using List.reverseRecOn with
  | nil => simp [histAfter]
  | append_singleton l a ih =>
      have hstep : histAfter (l ++ [a]) = add_to_history (histAfter l) a.1 a.2 := by
        simp [histAfter, List.foldl_append]
      rw [hstep, add_to_history, ih, trimHistory_eq]
      have hlen : ((l.drop (l.length - 2 * MAX_HISTORY)) ++ [(a.1, a.2)]).length =
          (l.length - (l.length - 2 * MAX_HISTORY)) + 1 := by
        simp
      rw [hlen]
      by_cases hL : l.length ≤ 2 * MAX_HISTORY - 1
      · have h1 : l.length - 2 * MAX_HISTORY = 0 := by simp [MAX_HISTORY] at hL ⊢; omega
        have h2 : (l.length - (l.length - 2 * MAX_HISTORY)) + 1 - 2 * MAX_HISTORY = 0 := by
          simp [MAX_HISTORY] at hL ⊢; omega
        have h3 : (l ++ [a]).length - 2 * MAX_HISTORY = 0 := by
          simp [MAX_HISTORY] at hL ⊢; omega
        simp [h1, h2, h3]
      · have h1 : (l.length - (l.length - 2 * MAX_HISTORY)) + 1 - 2 * MAX_HISTORY = 1 := by
          simp [MAX_HISTORY] at hL ⊢; omega
        have h2 : (l ++ [a]).length - 2 * MAX_HISTORY =
            (l.length - 2 * MAX_HISTORY) + 1 := by
          simp [MAX_HISTORY] at hL ⊢; omega
        rw [h1, h2]
        have h3 : (l.drop (l.length - 2 * MAX_HISTORY) ++ [(a.1, a.2)]).drop 1 =
            (l.drop (l.length - 2 * MAX_HISTORY)).drop 1 ++ [(a.1, a.2)] := by
          refine List.drop_append_of_le_length ?_
          simp [MAX_HISTORY] at hL ⊢
          omega
        rw [h3, List.drop_drop]
        rw [List.drop_append_of_le_length (by simp [MAX_HISTORY] at hL ⊢; omega)]

/-! ## Claim theorems -/

/-- C4: after every `add_to_history` call, for any number and order of
preceding calls starting from the empty history, the conversation history
holds at most `2 * MAX_HISTORY = 20` entries; eviction removes the oldest
entries first and preserves the relative order of the survivors — the
history is exactly the suffix of the appended sequence of length
`min n 20`. -/
theorem conversation_history_bounded (msgs : List Msg) :
    histAfter msgs = msgs.drop (msgs.length - 2 * MAX_HISTORY) ∧
    (histAfter msgs).length ≤ 2 * MAX_HISTORY ∧
    (histAfter msgs).length = min msgs.length (2 * MAX_HISTORY) ∧
    histAfter msgs <:+ msgs := by
  refine ⟨histAfter_eq msgs, ?_, ?_, ?_⟩
  · rw [histAfter_eq msgs]; simp [MAX_HISTORY]; omega
  · rw [histAfter_eq msgs]; simp [MAX_HISTORY]; omega
  · rw [histAfter_eq msgs]; exact List.drop_suffix _ _

/-- C2: `forget` can never terminate with `True`.  On any state it either
deadlocks (`none`: when the cache is cold it calls `load_memory`, and when
the key exists it calls `save_memory`, both of which re-acquire the
non-reentrant `_memory_lock` it already holds) or returns `False` leaving
the state untouched.  In particular `forget "color"` on a store holding
`"color"` deadlocks instead of removing the key and returning `True`, and
an immediately repeated `forget` on a store without the key returns
`False`. -/
theorem forget_never_returns_true :
    (∀ key s, forget key s = none ∨
      ∃ s2, forget key s = some (false, s2)) ∧
    forget "color"
      ⟨some [("color", "blue")], some [("color", "blue")], true, false⟩ = none ∧
    forget "color" ⟨some [], some [], true, false⟩ =
      some (false, ⟨some [], some [], true, false⟩) := by
  refine ⟨?_, rfl, rfl⟩
  intro key s
  cases hc : s.cache with
  | none => left; simp [forget, hc]
  | some c =>
      by_cases hk : dictHas key c = true
      · left; simp [forget, hc, hk]
      · right; exact ⟨s, by simp [forget, hc, hk]⟩

/-- C3: the `remember`/`recall` round trip.  On a cold cache (`None`, the
state every fresh process starts in and the state `clear_cache` produces)
`remember` deadlocks re-acquiring `_memory_lock` inside `load_memory`
instead of returning `True` — the failing input below is exactly the
repository test `test_remember_stores_value` (`clear_cache()` then
`remember`).  Whenever `remember` does return (warm cache) it returns
`True` and `recall` of the key yields the value, both with the cache
retained and after `clear_cache` forces the next recall to reload the
snapshot from disk (given the disk write succeeded). -/
theorem remember_recall_roundtrip :
    remember "test_key" "test_value" ⟨none, some [], true, false⟩ = none ∧
    (∀ key value cached s, s.cache = some cached → s.diskOk = true →
      ∀ b s2, remember key value s = some (b, s2) →
        b = true ∧ (recall_fact key s2).1 = some value ∧
        (recall_fact key (clear_cache s2)).1 = some value) ∧
    (∀ key value cached s, s.cache = some cached →
      (remember key value s).isSome = true) := by
  refine ⟨rfl, ?_, ?_⟩
  · intro key value cached s hc hdisk b s2 h
    rw [remember, hc] at h
    simp only [Option.some.injEq, Prod.mk.injEq] at h
    obtain ⟨hb, hs2⟩ := h
    refine ⟨hb.symm, ?_, ?_⟩
    · rw [← hs2]
      simp [save_memory, hdisk, recall_fact, load_memory, dictGet_insert]
    · rw [← hs2]
      simp [save_memory, hdisk, recall_fact, load_memory, clear_cache, dictGet_insert]
  · intro key value cached s hc
    simp [remember, hc]

/-- C3 witness: the warm-cache part of `remember_recall_roundtrip`
instantiated at `key = "color"`, `value = "blue"` on an empty warm store. -/
theorem remember_recall_roundtrip_witness :
    true = true ∧
    (recall_fact "color"
      ⟨some [("color", "blue")], some [("color", "blue")], true, false⟩).1 =
        some "blue" ∧
    (recall_fact "color" (clear_cache
      ⟨some [("color", "blue")], some [("color", "blue")], true, false⟩)).1 =
        some "blue" :=
  remember_recall_roundtrip.2.1 "color" "blue" [] ⟨some [], some [], true, false⟩
    rfl rfl true ⟨some [("color", "blue")], some [("color", "blue")], true, false⟩ rfl

/-- C1: whenever the memory-command handler returns a (non-empty) reply,
`get_response` returns exactly that reply immediately: no LLM provider
call is made (`llmCalls = []`, so `query_llm_with_context` is never
invoked) and the conversation history is left unchanged. -/
theorem get_response_memory_short_circuit :
    ∀ (serviceH runC : String → Except Unit (Option String))
      (pLLM sLLM : List Msg → Except Unit String)
      (text : String) (hist : List Msg) (ms : MemState) (r : String) (ms2 : MemState),
      handle_memory_commands (lowerStrip text) ms = some (some r, ms2) →
      r ≠ "" →
      get_response serviceH runC pLLM sLLM text hist ms = some ⟨r, hist, ms2, []⟩ := by
  intro serviceH runC pLLM sLLM text hist ms r ms2 hmem hr
  simp [get_response, hmem, truthy, hr]

/-- C1 witness: the memory command `"forget zzz"` on an empty warm store
is answered by the handler and short-circuits the dispatch. -/
theorem get_response_memory_short_circuit_witness :
    get_response (fun _ => .ok none) (fun _ => .ok none) (fun _ => .error ())
      (fun _ => .error ()) "forget zzz" [] ⟨some [], some [], true, false⟩ =
      some ⟨"I don\x27t remember anything about zzz to forget.", [],
        ⟨some [], some [], true, false⟩, []⟩ :=
  get_response_memory_short_circuit _ _ _ _ "forget zzz" []
    ⟨some [], some [], true, false⟩
    "I don\x27t remember anything about zzz to forget."
    ⟨some [], some [], true, false⟩ (by decide) (by decide)

/-- C5: `get_response` never lets an exception escape.  Whenever the
memory step terminates, the dispatch returns a reply (`isSome`); an
exception raised by the service-command step or by the OS-automation step
(the collaborators that can raise inside the `try` block) is converted by
the single top-level handler into the fixed apology string `errorReply`,
with the conversation history left unchanged. -/
theorem get_response_catches_exceptions :
    ∀ (serviceH runC : String → Except Unit (Option String))
      (pLLM sLLM : List Msg → Except Unit String)
      (text : String) (hist : List Msg) (ms : MemState)
      (r1 : Option String) (ms1 : MemState),
      handle_memory_commands (lowerStrip text) ms = some (r1, ms1) →
      ((get_response serviceH runC pLLM sLLM text hist ms).isSome = true) ∧
      (truthy r1 = none →
        (serviceH (lowerStrip text) = .error () →
          get_response serviceH runC pLLM sLLM text hist ms =
            some ⟨errorReply, hist, ms1, []⟩) ∧
        (∀ r2, serviceH (lowerStrip text) = .ok r2 → truthy r2 = none →
          runC (lowerStrip text) = .error () →
          get_response serviceH runC pLLM sLLM text hist ms =
            some ⟨errorReply, hist, ms1, []⟩)) := by
  intro serviceH runC pLLM sLLM text hist ms r1 ms1 hmem
  constructor
  · simp only [get_response, hmem]
    cases htr : truthy r1 with
    | some r => simp [*]
    | none =>
        cases hsv : serviceH (lowerStrip text) with
        | error e => simp [*]
        | ok r2 =>
            cases htr2 : truthy r2 with
            | some r => simp [*]
            | none =>
                cases hrc : runC (lowerStrip text) with
                | error e => simp [*]
                | ok r3 =>
                    cases htr3 : truthy r3 with
                    | some r => simp [*]
                    | none => simp [*]
  · intro htr
    constructor
    · intro hsv
      simp [get_response, hmem, htr, hsv]
    · intro r2 hsv htr2 hrc
      simp [get_response, hmem, htr, hsv, htr2, hrc]

/-- C5 witness: a service-command collaborator that raises on `"hello"`
(not a memory command) yields the fixed apology with history unchanged. -/
theorem get_response_catches_exceptions_witness :
    get_response (fun _ => .error ()) (fun _ => .ok none) (fun _ => .error ())
      (fun _ => .error ()) "hello" [] ⟨some [], some [], true, false⟩ =
      some ⟨errorReply, [], ⟨some [], some [], true, false⟩, []⟩ :=
  ((get_response_catches_exceptions (fun _ => .error ()) (fun _ => .ok none)
      (fun _ => .error ()) (fun _ => .error ()) "hello" []
      ⟨some [], some [], true, false⟩ none ⟨some [], some [], true, false⟩
      (by decide)).2 rfl).1 rfl

/-- C6: `query_llm_with_context` sends `build_messages()` (the system
prompt followed by the history) to the primary provider; if that call
raises it retries exactly once against the secondary provider with the
same message list; if both raise it returns the fixed apology string and
(by its total type) never raises to its caller.  The call log records
every outbound provider call with the message list sent. -/
theorem query_llm_fallback_policy :
    ∀ (p s : List Msg → Except Unit String) (hist : List Msg),
      build_messages hist = ("system", SYSTEM_PROMPT) :: hist ∧
      (∀ c, p (build_messages hist) = .ok c →
        query_llm_with_context p s hist = (c, [(.primary, build_messages hist)])) ∧
      (∀ c, p (build_messages hist) = .error () → s (build_messages hist) = .ok c →
        query_llm_with_context p s hist =
          (c, [(.primary, build_messages hist), (.secondary, build_messages hist)])) ∧
      (p (build_messages hist) = .error () → s (build_messages hist) = .error () →
        query_llm_with_context p s hist =
          (llmFailReply,
            [(.primary, build_messages hist), (.secondary, build_messages hist)])) := by
  intro p s hist
  refine ⟨rfl, ?_, ?_, ?_⟩
  · intro c hp
    simp [query_llm_with_context, hp]
  · intro c hp hs
    simp [query_llm_with_context, hp, hs]
  · intro hp hs
    simp [query_llm_with_context, hp, hs]

/-- C6 witness: both providers raising yields the fixed multi-provider
failure apology and exactly the two recorded outbound calls. -/
theorem query_llm_fallback_policy_witness :
    query_llm_with_context (fun _ => .error ()) (fun _ => .error ()) [] =
      (llmFailReply, [(.primary, build_messages []), (.secondary, build_messages [])]) :=
  (query_llm_fallback_policy (fun _ => .error ()) (fun _ => .error ()) []).2.2.2 rfl rfl

/-- C7 counterexample: `handle_weather_command` splits the utterance on
every occurrence of the substring `"in"` — which also occurs inside
`"berlin"` — and takes `parts[1]`, so `"weather in berlin"` queries the
weather for `"berl"`, not for `"berlin"` as the claim states.  (`getW` is
instantiated with an oracle echoing the location it is asked for.) -/
theorem weather_in_berlin_queries_berl :
    handle_weather_command none (fun l => locationString l) "weather in berlin" =
      some "berl" ∧
    ¬ handle_weather_command none (fun l => locationString l) "weather in berlin" =
      some "berlin" := by
  exact ⟨by decide, by decide⟩

/-- C7 (amended): for a keyword-recognized utterance the handler passes to
`get_weather` the stripped segment `parts[1]` of the split of the
lowercased utterance on the substring `"in"` (the text between the first
and second occurrences of `"in"`, or after the first when it is unique) —
not the substring after the word `"in"`.  When `"in"` does not occur at
all, the location comes from IP geolocation, and if that fails the handler
returns the fixed message asking the user to specify a city. -/
theorem handle_weather_location_extraction :
    ∀ (ipLoc : Option (String × String)) (getW : PyLocation → String) (input : String),
      (weatherKeywords.any (fun k => pyContains (pyLower input) k) = true →
        (1 < (pySplit (pyLower input) "in").length →
          handle_weather_command ipLoc getW input =
            some (getW (.str (pyStrip
              (((pySplit (pyLower input) "in").get? 1).getD ""))))) ∧
        ((pySplit (pyLower input) "in").length ≤ 1 →
          (∀ city country, ipLoc = some (city, country) →
            handle_weather_command ipLoc getW input = some (getW (.tup city country))) ∧
          (ipLoc = none →
            handle_weather_command ipLoc getW input =
              some "Could not determine your location. Please specify a city."))) ∧
      (weatherKeywords.any (fun k => pyContains (pyLower input) k) = false →
        handle_weather_command ipLoc getW input = none) := by
  intro ipLoc getW input
  constructor
  · intro hkw
    constructor
    · intro hlen
      simp [handle_weather_command, hkw, hlen]
    · intro hlen
      have hlt : ¬ 1 < (pySplit (pyLower input) "in").length := by omega
      constructor
      · intro city country hip
        simp [handle_weather_command, hkw, hlt, hip]
      · intro hip
        simp [handle_weather_command, hkw, hlt, hip]
  · intro hkw
    simp [handle_weather_command, hkw]

/-- C7 witness: `"weather in paris"` (a single occurrence of `"in"`)
queries the stripped `parts[1]`, which here is `"paris"`. -/
theorem handle_weather_location_extraction_witness :
    handle_weather_command none (fun l => locationString l) "weather in paris" =
      some (locationString (.str (pyStrip
        (((pySplit (pyLower "weather in paris") "in").get? 1).getD "")))) :=
  ((handle_weather_location_extraction none (fun l => locationString l)
      "weather in paris").1 (by decide)).1 (by decide)

/-- C8: after a successful `get_weather` call for a location with no
cached entry (which issues the one outbound request), a second call for
the same location — compared case-insensitively — strictly less than
`WEATHER_CACHE_TTL = 180` seconds later returns the cached response
string and issues no outbound request; once 180 seconds or more have
elapsed since the cached timestamp the stale entry is never served and a
new outbound request is issued. -/
theorem weather_cache_ttl :
    ∀ (http1 http2 : HttpResult) (loc1 loc2 : String) (now1 now2 : ℚ)
      (cache : WeatherCache) (d : WeatherData),
      pyLower loc1 = pyLower loc2 →
      dictGet (pyLower loc1) cache = none →
      http1 = .response 200 d →
      (get_weather http1 (.str loc1) now1 cache).issuedRequest = true ∧
      (now2 - now1 < WEATHER_CACHE_TTL →
        get_weather http2 (.str loc2) now2
            (get_weather http1 (.str loc1) now1 cache).cache =
          ⟨formatWeather loc1 d,
            (get_weather http1 (.str loc1) now1 cache).cache, false⟩) ∧
      (WEATHER_CACHE_TTL ≤ now2 - now1 →
        (get_weather http2 (.str loc2) now2
          (get_weather http1 (.str loc1) now1 cache).cache).issuedRequest = true) := by
  intro http1 http2 loc1 loc2 now1 now2 cache d hkey hmiss h200
  subst h200
  have h1 : get_weather (.response 200 d) (.str loc1) now1 cache =
      ⟨formatWeather loc1 d,
        dictInsert (pyLower loc1) ⟨formatWeather loc1 d, now1⟩ cache, true⟩ := by
    simp [get_weather, locationString, hmiss]
  refine ⟨by rw [h1], ?_, ?_⟩
  · intro hfresh
    rw [h1]
    simp [get_weather, locationString, ← hkey, dictGet_insert, hfresh]
  · intro hstale
    have hnf : ¬ now2 - now1 < WEATHER_CACHE_TTL := not_lt.mpr hstale
    rw [h1]
    simp only [get_weather, locationString, ← hkey, dictGet_insert]
    simp only [hnf, if_false]
    cases http2 with
    | reqError => rfl
    | response st d2 =>
        by_cases hst : st ≠ 200 <;> simp [hst]

/-- C8 witness: two calls for `"Paris"`/`"paris"` 100 seconds apart — the
second is served from the cache without a request. -/
theorem weather_cache_ttl_witness :
    (get_weather (.response 200 ⟨"clear sky", "20", "19", "50"⟩)
      (.str "Paris") 0 []).issuedRequest = true ∧
    get_weather .reqError (.str "paris") 100
        (get_weather (.response 200 ⟨"clear sky", "20", "19", "50"⟩)
          (.str "Paris") 0 []).cache =
      ⟨formatWeather "Paris" ⟨"clear sky", "20", "19", "50"⟩,
        (get_weather (.response 200 ⟨"clear sky", "20", "19", "50"⟩)
          (.str "Paris") 0 []).cache, false⟩ :=
  ⟨(weather_cache_ttl (.response 200 ⟨"clear sky", "20", "19", "50"⟩) .reqError
      "Paris" "paris" 0 100 [] ⟨"clear sky", "20", "19", "50"⟩
      (by decide) rfl rfl).1,
   (weather_cache_ttl (.response 200 ⟨"clear sky", "20", "19", "50"⟩) .reqError
      "Paris" "paris" 0 100 [] ⟨"clear sky", "20", "19", "50"⟩
      (by decide) rfl rfl).2.1 (by norm_num [WEATHER_CACHE_TTL])⟩

/-- C10: when the outbound request fails (a request exception or a
non-200 status) and no fresh cache entry exists for the location,
`get_weather` returns the apology string and leaves the weather cache
unchanged — the failure reply is never stored — so any later call for the
same location issues a new outbound request instead of serving the
apology from cache. -/
theorem get_weather_failure_not_cached :
    ∀ (http http2 : HttpResult) (loc : String) (now now2 : ℚ)
      (cache : WeatherCache),
      (∀ e, dictGet (pyLower loc) cache = some e →
        WEATHER_CACHE_TTL ≤ now - e.timestamp) →
      (http = .reqError ∨ ∃ st d, http = .response st d ∧ st ≠ 200) →
      get_weather http (.str loc) now cache =
        ⟨"Could not retrieve weather data for " ++ loc ++ ".", cache, true⟩ ∧
      (now ≤ now2 →
        (get_weather http2 (.str loc) now2 cache).issuedRequest = true) := by
  intro http http2 loc now now2 cache hstale hfail
  constructor
  · rcases hfail with h | ⟨st, d, h, hst⟩
    · subst h
      cases hg : dictGet (pyLower loc) cache with
      | none => simp [get_weather, locationString, hg]
      | some e =>
          have hnf : ¬ now - e.timestamp < WEATHER_CACHE_TTL :=
            not_lt.mpr (hstale e hg)
          simp [get_weather, locationString, hg, hnf]
    · subst h
      cases hg : dictGet (pyLower loc) cache with
      | none => simp [get_weather, locationString, hg, hst]
      | some e =>
          have hnf : ¬ now - e.timestamp < WEATHER_CACHE_TTL :=
            not_lt.mpr (hstale e hg)
          simp [get_weather, locationString, hg, hnf, hst]
  · intro h2
    cases hg : dictGet (pyLower loc) cache with
    | none =>
        simp only [get_weather, locationString, hg]
        cases http2 with
        | reqError => rfl
        | response st d2 => by_cases hst : st ≠ 200 <;> simp [hst]
    | some e =>
        have hs : WEATHER_CACHE_TTL ≤ now2 - e.timestamp :=
          le_trans (hstale e hg) (by linarith)
        have hnf : ¬ now2 - e.timestamp < WEATHER_CACHE_TTL := not_lt.mpr hs
        simp only [get_weather, locationString, hg]
        simp only [hnf, if_false]
        cases http2 with
        | reqError => rfl
        | response st d2 => by_cases hst : st ≠ 200 <;> simp [hst]

/-- C10 witness: a request exception for `"Paris"` on an empty cache
yields the apology, caches nothing, and a call 5 seconds later still
issues a request. -/
theorem get_weather_failure_not_cached_witness :
    get_weather .reqError (.str "Paris") 0 [] =
      ⟨"Could not retrieve weather data for " ++ "Paris" ++ ".", [], true⟩ ∧
    (get_weather .reqError (.str "Paris") 5 []).issuedRequest = true :=
  ⟨(get_weather_failure_not_cached .reqError .reqError "Paris" 0 5 []
      (fun e he => by simp [dictGet] at he) (Or.inl rfl)).1,
   (get_weather_failure_not_cached .reqError .reqError "Paris" 0 5 []
      (fun e he => by simp [dictGet] at he) (Or.inl rfl)).2 (by norm_num)⟩

/-! ## Fuzzy-matcher lemmas: the cross-multiplied Bool tests agree with the
rational `ratio()` comparisons -/

theorem cutoffOK_iff (word x : String) :
    cutoffOK word x = true ↔ (1 / 2 : ℚ) ≤ ratioTo word x := by
  by_cases h0 : tlen x word = 0
  · simp only [cutoffOK, ratioTo, pyRatio, h0, if_pos rfl, decide_eq_true_eq]
    constructor
    · intro _; norm_num
    · intro _; omega
  · simp only [cutoffOK, ratioTo, pyRatio, h0, if_false, decide_eq_true_eq]
    have hT : (0 : ℚ) < tlen x word := by
      exact_mod_cast Nat.pos_of_ne_zero h0
    rw [le_div_iff₀ hT]
    constructor
    · intro h
      have h2 : (tlen x word : ℚ) ≤ 4 * mtotal x word := by exact_mod_cast h
      linarith
    · intro h
      have h2 : (tlen x word : ℚ) ≤ 4 * mtotal x word := by linarith
      exact_mod_cast h2

theorem ratioLtB_iff (word x y : String) (hx : tlen x word ≠ 0)
    (hy : tlen y word ≠ 0) :
    ratioLtB word x y = true ↔ ratioTo word x < ratioTo word y := by
  simp only [ratioLtB, ratioTo, pyRatio, hx, hy, if_false, decide_eq_true_eq]
  have hX : (0 : ℚ) < tlen x word := by exact_mod_cast Nat.pos_of_ne_zero hx
  have hY : (0 : ℚ) < tlen y word := by exact_mod_cast Nat.pos_of_ne_zero hy
  rw [div_lt_div_iff₀ hX hY]
  constructor
  · intro h
    have h2 : (mtotal x word : ℚ) * tlen y word <
        (mtotal y word : ℚ) * tlen x word := by exact_mod_cast h
    linarith
  · intro h
    have h2 : (mtotal x word : ℚ) * tlen y word <
        (mtotal y word : ℚ) * tlen x word := by linarith
    exact_mod_cast h2

theorem ratioEqB_iff (word x y : String) (hx : tlen x word ≠ 0)
    (hy : tlen y word ≠ 0) :
    ratioEqB word x y = true ↔ ratioTo word x = ratioTo word y := by
  simp only [ratioEqB, ratioTo, pyRatio, hx, hy, if_false, beq_iff_eq]
  have hX : (0 : ℚ) < tlen x word := by exact_mod_cast Nat.pos_of_ne_zero hx
  have hY : (0 : ℚ) < tlen y word := by exact_mod_cast Nat.pos_of_ne_zero hy
  rw [div_eq_div_iff hX.ne' hY.ne']
  constructor
  · intro h
    have h2 : (mtotal x word : ℚ) * tlen y word =
        (mtotal y word : ℚ) * tlen x word := by exact_mod_cast h
    linarith
  · intro h
    have h2 : (mtotal x word : ℚ) * tlen y word =
        (mtotal y word : ℚ) * tlen x word := by linarith
    exact_mod_cast h2

/-- If the candidate fold returns `none`, it started from `none` and every
candidate failed the cutoff. -/
theorem gcmFold_none_spec (word : String) :
    ∀ (poss : List String) (acc : Option String),
      poss.foldl (gcmStep word) acc = none →
      acc = none ∧ ∀ p ∈ poss, cutoffOK word p = false := by
  intro poss
  induction poss with
  | nil =>
      intro acc h
      simp only [List.foldl_nil] at h
      exact ⟨h, by simp⟩
  | cons x rest ih =>
      intro acc h
      rw [List.foldl_cons] at h
      obtain ⟨hstep, hrest⟩ := ih (gcmStep word acc x) h
      have hx : acc = none ∧ cutoffOK word x = false := by
        by_cases hc : cutoffOK word x = true
        · exfalso
          cases hacc : acc with
          | none => rw [hacc] at hstep; simp [gcmStep, hc] at hstep
          | some y =>
              rw [hacc] at hstep
              simp only [gcmStep, hc, if_pos] at hstep
              split at hstep <;> simp at hstep
        · have heq : gcmStep word acc x = acc := by simp [gcmStep, hc]
          rw [heq] at hstep
          exact ⟨hstep, by simpa using hc⟩
      refine ⟨hx.1, ?_⟩
      intro p hp
      rcases List.mem_cons.mp hp with rfl | hp2
      · exact hx.2
      · exact hrest p hp2

/-- If the candidate fold returns `some c`, then `c` clears the cutoff, is
the accumulator or one of the candidates, and has the maximal ratio among
all candidates (and at least the accumulator's ratio). -/
theorem gcmFold_some_spec (word : String) :
    ∀ (poss : List String) (acc : Option String),
      (∀ p ∈ poss, tlen p word ≠ 0) →
      (∀ y, acc = some y → tlen y word ≠ 0 ∧ (1 / 2 : ℚ) ≤ ratioTo word y) →
      ∀ c, poss.foldl (gcmStep word) acc = some c →
        tlen c word ≠ 0 ∧ (1 / 2 : ℚ) ≤ ratioTo word c ∧
        (acc = some c ∨ c ∈ poss) ∧
        (∀ p ∈ poss, ratioTo word p ≤ ratioTo word c) ∧
        (∀ y, acc = some y → ratioTo word y ≤ ratioTo word c) := by
  intro poss
  induction poss with
  | nil =>
      intro acc hpos hacc c h
      simp only [List.foldl_nil] at h
      obtain ⟨ht, hr⟩ := hacc c h
      refine ⟨ht, hr, Or.inl h, by simp, ?_⟩
      intro y hy
      rw [h] at hy
      injection hy with hy2
      rw [← hy2]
  | cons x rest ih =>
      intro acc hpos hacc c h
      rw [List.foldl_cons] at h
      have hposr : ∀ p ∈ rest, tlen p word ≠ 0 :=
        fun p hp => hpos p (List.mem_cons_of_mem _ hp)
      have hxpos : tlen x word ≠ 0 := hpos x (List.mem_cons_self _ _)
      by_cases hc : cutoffOK word x = true
      · have hxr : (1 / 2 : ℚ) ≤ ratioTo word x := (cutoffOK_iff word x).mp hc
        cases haccv : acc with
        | none =>
            rw [haccv] at h
            have hstep : gcmStep word none x = some x := by simp [gcmStep, hc]
            rw [hstep] at h
            obtain ⟨ht, hr, hmem, hmax, hge⟩ := ih (some x) hposr
              (fun z hz => by cases hz; exact ⟨hxpos, hxr⟩) c h
            refine ⟨ht, hr, ?_, ?_, ?_⟩
            · right
              rcases hmem with h1 | h2
              · cases h1; exact List.mem_cons_self _ _
              · exact List.mem_cons_of_mem _ h2
            · intro p hp
              rcases List.mem_cons.mp hp with rfl | hp2
              · exact hge p rfl
              · exact hmax p hp2
            · intro y hy
              exact Option.noConfusion hy
        | some y =>
            obtain ⟨hty, hry⟩ := hacc y haccv
            rw [haccv] at h
            by_cases hlt :
                (ratioLtB word y x || (ratioEqB word y x && strLtB y.data x.data)) = true
            · have hstep : gcmStep word (some y) x = some x := by
                simp [gcmStep, hc, hlt]
              rw [hstep] at h
              have hyx : ratioTo word y ≤ ratioTo word x := by
                have hlt2 : ratioLtB word y x = true ∨
                    (ratioEqB word y x && strLtB y.data x.data) = true := by
                  simpa using hlt
                rcases hlt2 with ha | hb
                · exact le_of_lt ((ratioLtB_iff word y x hty hxpos).mp ha)
                · have hb1 : ratioEqB word y x = true := by
                    simp only [Bool.and_eq_true] at hb
                    exact hb.1
                  exact le_of_eq ((ratioEqB_iff word y x hty hxpos).mp hb1)
              obtain ⟨ht, hr, hmem, hmax, hge⟩ := ih (some x) hposr
                (fun z hz => by cases hz; exact ⟨hxpos, hxr⟩) c h
              refine ⟨ht, hr, ?_, ?_, ?_⟩
              · right
                rcases hmem with h1 | h2
                · cases h1; exact List.mem_cons_self _ _
                · exact List.mem_cons_of_mem _ h2
              · intro p hp
                rcases List.mem_cons.mp hp with rfl | hp2
                · exact hge p rfl
                · exact hmax p hp2
              · intro z hz
                injection hz with hz2
                rw [← hz2]
                exact le_trans hyx (hge x rfl)
            · have hstep : gcmStep word (some y) x = some y := by
                simp only [gcmStep, hc, if_pos]
                rw [if_neg (by simpa using hlt)]
              rw [hstep] at h
              have hxy : ratioTo word x ≤ ratioTo word y := by
                have h1 : ratioLtB word y x = false := by
                  cases hb : ratioLtB word y x
                  · rfl
                  · exfalso; apply hlt; simp [hb]
                have h2 : ¬ ratioTo word y < ratioTo word x :=
                  fun hcon => by
                    have := (ratioLtB_iff word y x hty hxpos).mpr hcon
                    rw [h1] at this
                    cases this
                exact not_lt.mp h2
              obtain ⟨ht, hr, hmem, hmax, hge⟩ := ih (some y) hposr
                (fun z hz => by cases hz; exact ⟨hty, hry⟩) c h
              refine ⟨ht, hr, ?_, ?_, ?_⟩
              · rcases hmem with h1 | h2
                · exact Or.inl h1
                · right; exact List.mem_cons_of_mem _ h2
              · intro p hp
                rcases List.mem_cons.mp hp with rfl | hp2
                · exact le_trans hxy (hge y rfl)
                · exact hmax p hp2
              · intro z hz
                injection hz with hz2
                rw [← hz2]
                exact hge y rfl
      · have hstep : gcmStep word acc x = acc := by simp [gcmStep, hc]
        rw [hstep] at h
        obtain ⟨ht, hr, hmem, hmax, hge⟩ := ih acc hposr hacc c h
        refine ⟨ht, hr, ?_, ?_, ?_⟩
        · rcases hmem with h1 | h2
          · exact Or.inl h1
          · exact Or.inr (List.mem_cons_of_mem _ h2)
        · intro p hp
          rcases List.mem_cons.mp hp with rfl | hp2
          · have hplt : ratioTo word p < 1 / 2 := by
              have := mt (cutoffOK_iff word p).mpr (by simp [hc])
              exact not_le.mp this
            exact le_of_lt (lt_of_lt_of_le hplt hr)
          · exact hmax p hp2
        · exact hge

/-- Each registry phrase is non-empty, so every ratio denominator is
positive. -/
theorem commandPhrases_tlen_pos (word p : String) (hp : p ∈ commandPhrases) :
    tlen p word ≠ 0 := by
  have hl : 0 < p.data.length := by fin_cases hp <;> decide
  simp only [tlen]
  omega

set_option maxRecDepth 8000 in
/-- C9: on every call `run_command` logs the (lowercased) raw input
unconditionally at the current end of the log.  It returns absent exactly
when no registry phrase clears the 0.5 similarity-ratio cutoff — in
particular for `"completely unrelated command xyz123"`.  On a match it
logs the matched phrase, invokes the bound action and returns that
action's string result, and the matched phrase clears the cutoff and has
the maximal ratio over the registry — in particular `"opn browser"`
resolves to the `"open browser"` action. -/
theorem run_command_fuzzy_match :
    (∀ (act : String → String) (input : String) (log : List LogEntry),
      (run_command act input log).2.get? log.length =
        some ⟨pyLower input, none⟩) ∧
    (∀ (act : String → String) (input : String) (log : List LogEntry),
      (run_command act input log).1 = none →
        ∀ p ∈ commandPhrases, ratioTo (pyLower input) p < 1 / 2) ∧
    (∀ (act : String → String) (input : String) (log : List LogEntry) (c : String),
      get_close_matches1 (pyLower input) commandPhrases = some c →
        run_command act input log =
          (some (act c), log ++ [⟨pyLower input, none⟩, ⟨pyLower input, some c⟩]) ∧
        (1 / 2 : ℚ) ≤ ratioTo (pyLower input) c ∧
        ∀ p ∈ commandPhrases, ratioTo (pyLower input) p ≤ ratioTo (pyLower input) c) ∧
    get_close_matches1 (pyLower "completely unrelated command xyz123")
      commandPhrases = none ∧
    (∀ (act : String → String) (log : List LogEntry),
      (run_command act "completely unrelated command xyz123" log).1 = none) ∧
    get_close_matches1 (pyLower "opn browser") commandPhrases =
      some "open browser" ∧
    (∀ (act : String → String) (log : List LogEntry),
      (run_command act "opn browser" log).1 = some (act "open browser")) := by
  have hlogged : ∀ (act : String → String) (input : String) (log : List LogEntry),
      (run_command act input log).2.get? log.length =
        some ⟨pyLower input, none⟩ := by
    intro act input log
    have key : ∀ (rest : List LogEntry),
        (log ++ (⟨pyLower input, none⟩ :: rest)).get? log.length =
          some (⟨pyLower input, none⟩ : LogEntry) := by
      intro rest
      rw [List.get?_append_right le_rfl]
      simp
    cases hm : get_close_matches1 (pyLower input) commandPhrases with
    | none =>
        simp only [run_command, hm]
        exact key []
    | some c =>
        simp only [run_command, hm]
        simpa [List.append_assoc] using key [⟨pyLower input, some c⟩]
  have hnone : ∀ (act : String → String) (input : String) (log : List LogEntry),
      (run_command act input log).1 = none →
        ∀ p ∈ commandPhrases, ratioTo (pyLower input) p < 1 / 2 := by
    intro act input log h p hp
    cases hm : get_close_matches1 (pyLower input) commandPhrases with
    | some c => simp [run_command, hm] at h
    | none =>
        obtain ⟨_, hall⟩ := gcmFold_none_spec (pyLower input) commandPhrases none hm
        have := mt (cutoffOK_iff (pyLower input) p).mpr (by simp [hall p hp])
        exact not_le.mp this
  have hsome : ∀ (act : String → String) (input : String) (log : List LogEntry)
      (c : String),
      get_close_matches1 (pyLower input) commandPhrases = some c →
        run_command act input log =
          (some (act c), log ++ [⟨pyLower input, none⟩, ⟨pyLower input, some c⟩]) ∧
        (1 / 2 : ℚ) ≤ ratioTo (pyLower input) c ∧
        ∀ p ∈ commandPhrases, ratioTo (pyLower input) p ≤ ratioTo (pyLower input) c := by
    intro act input log c hm
    obtain ⟨_, hr, _, hmax, _⟩ := gcmFold_some_spec (pyLower input) commandPhrases none
      (fun p hp => commandPhrases_tlen_pos (pyLower input) p hp)
      (fun y hy => Option.noConfusion hy) c hm
    exact ⟨by simp [run_command, hm], hr, hmax⟩
  have h4 : get_close_matches1 (pyLower "completely unrelated command xyz123")
      commandPhrases = none := by decide
  have h6 : get_close_matches1 (pyLower "opn browser") commandPhrases =
      some "open browser" := by decide
  refine ⟨hlogged, hnone, hsome, h4, ?_, h6, ?_⟩
  · intro act log
    simp [run_command, h4]
  · intro act log
    simp [run_command, h6]

set_option maxRecDepth 8000 in
/-- C9 witness: the full dispatch on `"opn browser"` starting from an
empty log — the raw input is logged, the matched phrase `"open browser"`
is logged, and the bound action's result is returned. -/
theorem run_command_fuzzy_match_witness :
    run_command (fun p => p) "opn browser" [] =
      (some "open browser",
        [] ++ [⟨pyLower "opn browser", none⟩,
          ⟨pyLower "opn browser", some "open browser"⟩]) :=
  (run_command_fuzzy_match.2.2.1 (fun p => p) "opn browser" [] "open browser"
    (by decide)).1
